import Mathlib

/-!
Verification of the quantitative-analysis core (`src/ai_analyzer/quant.py`) of
the repository.  All Python floats are modelled as rationals (`ℚ`); the single
irrational primitive `math.sqrt` is threaded through as an explicit parameter
`sq : ℚ → ℚ`, so every definition stays executable and results that do not
depend on square roots are proved for every `sq`.  Python values that may fail
float conversion are modelled by `PyVal`; fallible code paths (KeyError /
TypeError) are modelled with `Except`.
-/

/-! ## Python value model -/

/-- Model of a Python value stored in a history record: a numeric value,
`None`, or some other value that `float()` cannot convert (for which
arithmetic and comparisons with numbers raise `TypeError`). -/
inductive PyVal where
  | num (q : ℚ)
  | pynone
  | other
deriving Repr, DecidableEq

/-- One history record (`dict`) as consumed by `QuantAnalyzer`.  A field of
`Option.none` models a missing dictionary key (`d["k"]` raises `KeyError`,
`d.get("k", dflt)` yields the default). -/
structure PricePoint where
  date : String := ""
  close : Option PyVal := none
  high : Option PyVal := none
  low : Option PyVal := none
deriving Repr, DecidableEq

instance : Inhabited PricePoint := ⟨{}⟩

/-- `safe_float` from `calculate_all_indicators`: `None` and non-convertible
values coerce to `0.0`, numbers pass through. -/
def safeFloat : PyVal → ℚ
  | .num q => q
  | .pynone => 0
  | .other => 0

/-- Python truthiness of a value (`if closes[0]:`): `0` and `None` are falsy,
other non-numeric values (such as a non-empty string) are truthy. -/
def pyTruthyV : PyVal → Bool
  | .num q => q != 0
  | .pynone => false
  | .other => true

/-- Python `val != 0` (`if closes[i-1] != 0:`): true for every non-numeric
value, and for a number exactly when it is nonzero. -/
def pyNe0 : PyVal → Bool
  | .num q => q != 0
  | _ => true

/-- Truthiness of a Python `float | None` (`if indicators.ma5:`). -/
def optTruthy : Option ℚ → Bool
  | some q => q != 0
  | none => false

/-! ## List helpers mirroring Python slicing -/

/-- Python `l[-n:]` (for `n = 0` Python yields the whole list). -/
def lastN (l : List α) (n : ℕ) : List α :=
  if n = 0 then l else l.drop (l.length - n)

/-- Python `l[a:b]` for `0 ≤ a ≤ b`. -/
def pySlice (l : List α) (a b : ℕ) : List α :=
  (l.drop a).take (b - a)

/-- Python `max(l)` on a list known to be non-empty (`max([])` raises, the
code only reaches this call with non-empty input). -/
def pyMaxD : List ℚ → ℚ
  | [] => 0
  | h :: t => t.foldl max h

/-- Python `min(l)` on a list known to be non-empty. -/
def pyMinD : List ℚ → ℚ
  | [] => 0
  | h :: t => t.foldl min h

/-- Python `round(x, n)`: round-half-to-even on the scaled value. -/
def roundHalfEven (q : ℚ) : ℤ :=
  let f := ⌊q⌋
  let r := q - f
  if r < 1 / 2 then f
  else if 1 / 2 < r then f + 1
  else if f % 2 = 0 then f else f + 1

/-- Python `round(x, n)` as a rational. -/
def roundTo (n : ℕ) (q : ℚ) : ℚ :=
  (roundHalfEven (q * 10 ^ n) : ℚ) / 10 ^ n

/-! ## Technical indicator primitives (`QuantAnalyzer`) -/

/-- `QuantAnalyzer._sma`. -/
def sma (data : List ℚ) (period : ℕ) : Option ℚ :=
  if data.length < period then none
  else some ((lastN data period).sum / period)

/-- One step of the `_ema` loop: `ema = (price - ema) * multiplier + ema`. -/
def emaStep (m acc price : ℚ) : ℚ :=
  (price - acc) * m + acc

/-- `QuantAnalyzer._ema`: seeded with the SMA of the first `period` points. -/
def ema (data : List ℚ) (period : ℕ) : Option ℚ :=
  if data.length < period then none
  else some ((data.drop period).foldl (emaStep (2 / ((period : ℚ) + 1)))
    ((data.take period).sum / period))

/-- The variance computed inside `QuantAnalyzer._std` (denominator `n - 1`). -/
def varQ (data : List ℚ) : ℚ :=
  let mean := data.sum / data.length
  (data.map fun x => (x - mean) ^ 2).sum / ((data.length : ℚ) - 1)

/-- `QuantAnalyzer._std`, with `math.sqrt` supplied as `sq`. -/
def stdQ (sq : ℚ → ℚ) (data : List ℚ) : ℚ :=
  if data.length < 2 then 0 else sq (varQ data)

/-- The list `changes` of `calculate_rsi`: consecutive deltas. -/
def changesOf (prices : List ℚ) : List ℚ :=
  List.zipWith (fun b a => b - a) prices.tail prices

/-- `QuantAnalyzer.calculate_rsi`. -/
def calculate_rsi (prices : List ℚ) (period : ℕ) : Option ℚ :=
  if prices.length < period + 1 then none
  else
    let recent := lastN (changesOf prices) period
    let gains := recent.map fun c => max 0 c
    let losses := recent.map fun c => |min 0 c|
    let avgGain := gains.sum / period
    let avgLoss := losses.sum / period
    if avgLoss = 0 then some 100
    else some (100 - 100 / (1 + avgGain / avgLoss))

/-- The `macd_history` list of `calculate_macd`: the MACD value of every
prefix of length `slow .. len`, kept only when both prefix EMAs are truthy
(`if ef and es:`). -/
def macdHistoryOf (prices : List ℚ) (fast slow : ℕ) : List ℚ :=
  (List.range' slow (prices.length + 1 - slow)).filterMap fun i =>
    match ema (prices.take i) fast, ema (prices.take i) slow with
    | some ef, some es => if ef ≠ 0 ∧ es ≠ 0 then some (ef - es) else none
    | _, _ => none

/-- `QuantAnalyzer.calculate_macd`.  The histogram is produced only when the
signal line is truthy (`macd_line - signal_line if signal_line else None`). -/
def calculate_macd (prices : List ℚ) (fast slow sig : ℕ) :
    Option ℚ × Option ℚ × Option ℚ :=
  if prices.length < slow + sig then (none, none, none)
  else
    match ema prices fast, ema prices slow with
    | some emaFast, some emaSlow =>
      let macdLine := emaFast - emaSlow
      let macdHistory := macdHistoryOf prices fast slow
      if macdHistory.length < sig then (some macdLine, none, none)
      else
        let signalLine := sma macdHistory sig
        let histogram :=
          match signalLine with
          | some s => if s = 0 then none else some (macdLine - s)
          | none => none
        (some macdLine, signalLine, histogram)
    | _, _ => (none, none, none)

/-- `QuantAnalyzer.calculate_bollinger`. -/
def calculate_bollinger (sq : ℚ → ℚ) (prices : List ℚ) (period : ℕ)
    (stdDev : ℚ) : Option ℚ × Option ℚ × Option ℚ :=
  if prices.length < period then (none, none, none)
  else
    match sma prices period with
    | none => (none, none, none)
    | some middle =>
      let std := stdQ sq (lastN prices period)
      (some (middle + stdDev * std), some middle, some (middle - stdDev * std))

/-- `QuantAnalyzer.calculate_kdj` (simplified variant: `k = rsv`, `d = k`,
`j = 3k - 2d`).  Python's `max`/`min` raise on an empty slice; that case
(unreachable from `calculate_all_indicators`) is modelled by the all-absent
triple. -/
def calculate_kdj (highs lows closes : List ℚ) (period : ℕ) :
    Option ℚ × Option ℚ × Option ℚ :=
  if closes.length < period then (none, none, none)
  else
    match lastN highs period, lastN lows period, closes.getLast? with
    | hh :: ht, lh :: lt, some c =>
      let highest := ht.foldl max hh
      let lowest := lt.foldl min lh
      let rsv := if highest = lowest then 50
        else (c - lowest) / (highest - lowest) * 100
      let k := rsv
      let d := k
      let j := 3 * k - 2 * d
      (some k, some d, some j)
    | _, _, _ => (none, none, none)

/-- `QuantAnalyzer.calculate_atr`.  Python indexes `highs[i]`/`lows[i]`
directly (an `IndexError` if those lists are shorter than `closes`, which the
indicator engine never does); out-of-range access is modelled by `getD _ 0`. -/
def calculate_atr (highs lows closes : List ℚ) (period : ℕ) : Option ℚ :=
  if closes.length < period + 1 then none
  else
    let trs := (List.range' 1 (closes.length - 1)).map fun i =>
      max (highs.getD i 0 - lows.getD i 0)
        (max |highs.getD i 0 - closes.getD (i - 1) 0|
          |lows.getD i 0 - closes.getD (i - 1) 0|)
    some ((lastN trs period).sum / period)

/-! ## TechnicalIndicators and the composite signal -/

/-- The `TechnicalIndicators` dataclass (defaults as in the source). -/
structure TechnicalIndicators where
  ma5 : Option ℚ := none
  ma10 : Option ℚ := none
  ma20 : Option ℚ := none
  ma60 : Option ℚ := none
  ema12 : Option ℚ := none
  ema26 : Option ℚ := none
  macd : Option ℚ := none
  macd_signal : Option ℚ := none
  macd_hist : Option ℚ := none
  rsi_6 : Option ℚ := none
  rsi_14 : Option ℚ := none
  boll_upper : Option ℚ := none
  boll_middle : Option ℚ := none
  boll_lower : Option ℚ := none
  boll_width : Option ℚ := none
  kdj_k : Option ℚ := none
  kdj_d : Option ℚ := none
  kdj_j : Option ℚ := none
  atr : Option ℚ := none
  obv_trend : Option String := none
  trend_score : ℤ := 0
  signal : String := "观望"
deriving Repr, DecidableEq

/-- `QuantAnalyzer._calculate_signal`: the additive composite score (split by
indicator family; Python accumulates the same summands sequentially) and the
categorical signal derived from the clamped score. -/
def calcSignal (currentPrice : ℚ) (ind : TechnicalIndicators) : ℤ × String :=
  let maScore : ℤ :=
    if optTruthy ind.ma5 && optTruthy ind.ma10 && optTruthy ind.ma20 then
      let m5 := ind.ma5.getD 0
      let m10 := ind.ma10.getD 0
      let m20 := ind.ma20.getD 0
      if currentPrice > m5 ∧ m5 > m10 ∧ m10 > m20 then 30
      else if currentPrice > m5 ∧ m5 > m10 then 20
      else if currentPrice > m5 then 10
      else if currentPrice < m5 ∧ m5 < m10 ∧ m10 < m20 then -30
      else if currentPrice < m5 ∧ m5 < m10 then -20
      else if currentPrice < m5 then -10
      else 0
    else 0
  let macdScore : ℤ :=
    if ind.macd_hist.isSome then
      let h := ind.macd_hist.getD 0
      (if h > 0 then (if h > 1 / 100 then 15 else 10)
        else (if h < -(1 / 100) then -15 else -10)) +
      (if optTruthy ind.macd && optTruthy ind.macd_signal then
        (if ind.macd.getD 0 > ind.macd_signal.getD 0 then 10 else -10)
      else 0)
    else 0
  let rsiScore : ℤ :=
    if optTruthy ind.rsi_14 then
      let r := ind.rsi_14.getD 0
      if r > 70 then -25
      else if r > 60 then -10
      else if r < 30 then 25
      else if r < 40 then 10
      else 0
    else 0
  let kdjScore : ℤ :=
    if ind.kdj_j.isSome then
      let j := ind.kdj_j.getD 0
      if j > 100 then -20
      else if j > 80 then -10
      else if j < 0 then 20
      else if j < 20 then 10
      else 0
    else 0
  let score := maScore + macdScore + rsiScore + kdjScore
  let clamped := max (-100) (min 100 score)
  let sigStr :=
    if clamped ≥ 60 then "强烈买入"
    else if clamped ≥ 30 then "买入"
    else if clamped ≥ -30 then "观望"
    else if clamped ≥ -60 then "卖出"
    else "强烈卖出"
  (clamped, sigStr)

/-- The `closes` list of `calculate_all_indicators`:
`safe_float(d.get("close", 0))`. -/
def closesOf (hd : List PricePoint) : List ℚ :=
  hd.map fun d => safeFloat (d.close.getD (.num 0))

/-- The `highs` list: `safe_float(d.get("high", c))` where `c` is the
already-coerced close of the same record. -/
def highsOf (hd : List PricePoint) : List ℚ :=
  List.zipWith (fun d c => match d.high with
    | some v => safeFloat v
    | none => c) hd (closesOf hd)

/-- The `lows` list: `safe_float(d.get("low", c))`. -/
def lowsOf (hd : List PricePoint) : List ℚ :=
  List.zipWith (fun d c => match d.low with
    | some v => safeFloat v
    | none => c) hd (closesOf hd)

/-- `QuantAnalyzer.calculate_all_indicators`. -/
def calculate_all_indicators (sq : ℚ → ℚ) (hd : List PricePoint) :
    TechnicalIndicators :=
  if hd.length < 5 then {}
  else
    let closes := closesOf hd
    let highs := highsOf hd
    let lows := lowsOf hd
    let macdTriple := calculate_macd closes 12 26 9
    let bollTriple := calculate_bollinger sq closes 20 2
    let upper := bollTriple.1
    let middle := bollTriple.2.1
    let lower := bollTriple.2.2
    let bollWidth :=
      if optTruthy upper && optTruthy lower then
        if optTruthy middle then
          some ((upper.getD 0 - lower.getD 0) / middle.getD 0 * 100)
        else none
      else none
    let kdjTriple := calculate_kdj highs lows closes 9
    let pre : TechnicalIndicators :=
      { ma5 := sma closes 5
        ma10 := sma closes 10
        ma20 := sma closes 20
        ma60 := sma closes 60
        ema12 := ema closes 12
        ema26 := ema closes 26
        macd := macdTriple.1
        macd_signal := macdTriple.2.1
        macd_hist := macdTriple.2.2
        rsi_6 := calculate_rsi closes 6
        rsi_14 := calculate_rsi closes 14
        boll_upper := upper
        boll_middle := middle
        boll_lower := lower
        boll_width := bollWidth
        kdj_k := kdjTriple.1
        kdj_d := kdjTriple.2.1
        kdj_j := kdjTriple.2.2
        atr := calculate_atr highs lows closes 14
        obv_trend := none }
    let scored := calcSignal (closes.getLastD 0) pre
    { pre with trend_score := scored.1, signal := scored.2 }

/-! ## Performance engine (`calculate_performance`) -/

/-- The `PerformanceMetrics` dataclass. -/
structure PerformanceMetrics where
  total_return : ℚ
  annual_return : ℚ
  daily_return_mean : ℚ
  daily_return_std : ℚ
  volatility : ℚ
  max_drawdown : ℚ
  max_drawdown_duration : ℕ
  var_95 : ℚ
  var_99 : ℚ
  sharpe_ratio : ℚ
  sortino_ratio : ℚ
  calmar_ratio : ℚ
  positive_days : ℕ
  negative_days : ℕ
  best_day : ℚ
  worst_day : ℚ
deriving Repr, DecidableEq

/-- `[d["close"] for d in history_data]`: raises `KeyError` at the first
record without a `close` key. -/
def strictCloses : List PricePoint → Except String (List PyVal)
  | [] => .ok []
  | d :: rest =>
    match d.close with
    | none => .error "KeyError"
    | some v =>
      match strictCloses rest with
      | .error e => .error e
      | .ok vs => .ok (v :: vs)

/-- Conversion of the raw close values to numbers; a non-numeric value models
the `TypeError` Python raises when such a value first meets arithmetic or an
ordered comparison (at the latest inside `_calculate_max_drawdown`). -/
def toNums : List PyVal → Except String (List ℚ)
  | [] => .ok []
  | v :: rest =>
    match v with
    | .num q =>
      match toNums rest with
      | .error e => .error e
      | .ok qs => .ok (q :: qs)
    | _ => .error "TypeError"

/-- The daily-returns loop of `calculate_performance` over consecutive
`(prior, current)` close pairs: pairs with prior `!= 0` contribute
`(cur - prior)/prior * 100`; the subtraction raises `TypeError` when a
non-numeric value is involved. -/
def dailyReturnsFrom : List (PyVal × PyVal) → Except String (List ℚ)
  | [] => .ok []
  | (prev, cur) :: rest =>
    if pyNe0 prev then
      match prev, cur with
      | .num p, .num c =>
        match dailyReturnsFrom rest with
        | .error e => .error e
        | .ok rs => .ok ((c - p) / p * 100 :: rs)
      | _, _ => .error "TypeError"
    else dailyReturnsFrom rest

/-- Pure daily returns of an all-numeric close series. -/
def dailyReturnsQ : List (ℚ × ℚ) → List ℚ
  | [] => []
  | (p, c) :: rest =>
    if p ≠ 0 then (c - p) / p * 100 :: dailyReturnsQ rest
    else dailyReturnsQ rest

/-- `total_return = (closes[-1] - closes[0]) / closes[0] * 100 if closes[0]
else 0` over raw values. -/
def totalReturnE (vals : List PyVal) : Except String ℚ :=
  if pyTruthyV (vals.headD .pynone) then
    match vals.headD .pynone, vals.getLastD .pynone with
    | .num q0, .num ql => .ok ((ql - q0) / q0 * 100)
    | _, _ => .error "TypeError"
  else .ok 0

/-- State of the `_calculate_max_drawdown` loop. -/
structure DDState where
  maxDd : ℚ := 0
  maxDur : ℕ := 0
  peak : ℚ := 0
  peakIdx : ℕ := 0
  curDur : ℕ := 0
deriving Repr, DecidableEq

/-- One iteration of the `_calculate_max_drawdown` loop at `(index, price)`. -/
def ddStep (s : DDState) (ip : ℕ × ℚ) : DDState :=
  let i := ip.1
  let price := ip.2
  if price > s.peak then { s with peak := price, peakIdx := i, curDur := 0 }
  else
    let dd := if s.peak > 0 then (s.peak - price) / s.peak * 100 else 0
    let cur := i - s.peakIdx
    if dd > s.maxDd then { s with maxDd := dd, maxDur := cur, curDur := cur }
    else { s with curDur := cur }

/-- `QuantAnalyzer._calculate_max_drawdown`. -/
def maxDrawdown (prices : List ℚ) : ℚ × ℕ :=
  match prices with
  | [] => (0, 0)
  | p0 :: _ =>
    let fin := prices.enum.foldl ddStep
      { maxDd := 0, maxDur := 0, peak := p0, peakIdx := 0, curDur := 0 }
    (fin.maxDd, fin.maxDur)

/-- The fully-populated record built on the success path of
`calculate_performance`. -/
def perfRecord (sq : ℚ → ℚ) (days : ℕ) (totalReturn : ℚ)
    (nums dailyReturns : List ℚ) : PerformanceMetrics :=
  let annualReturn := if 0 < days then totalReturn * (252 / days) else 0
  let dailyMean := dailyReturns.sum / dailyReturns.length
  let dailyStd := stdQ sq dailyReturns
  let volatility := dailyStd * sq 252
  let dd := maxDrawdown nums
  let sortedReturns := dailyReturns.mergeSort fun a b => decide (a ≤ b)
  let var95Idx := dailyReturns.length * 5 / 100
  let var99Idx := dailyReturns.length / 100
  let var95 := if var95Idx < sortedReturns.length then sortedReturns.getD var95Idx 0 else 0
  let var99 := if var99Idx < sortedReturns.length then sortedReturns.getD var99Idx 0 else 0
  let riskFreeDaily := (2 / 100 : ℚ) / 252
  let sharpe := if 0 < dailyStd then (dailyMean - riskFreeDaily * 100) / dailyStd * sq 252 else 0
  let downside := dailyReturns.filter fun r => r < 0
  let sortino :=
    if downside ≠ [] then
      if 0 < stdQ sq downside then
        (dailyMean - riskFreeDaily * 100) / stdQ sq downside * sq 252
      else 0
    else 0
  let calmar := if dd.1 ≠ 0 then annualReturn / |dd.1| else 0
  { total_return := roundTo 2 totalReturn
    annual_return := roundTo 2 annualReturn
    daily_return_mean := roundTo 4 dailyMean
    daily_return_std := roundTo 4 dailyStd
    volatility := roundTo 2 volatility
    max_drawdown := roundTo 2 dd.1
    max_drawdown_duration := dd.2
    var_95 := roundTo 2 var95
    var_99 := roundTo 2 var99
    sharpe_ratio := roundTo 2 sharpe
    sortino_ratio := roundTo 2 sortino
    calmar_ratio := roundTo 2 calmar
    positive_days := (dailyReturns.filter fun r => 0 < r).length
    negative_days := (dailyReturns.filter fun r => r < 0).length
    best_day := roundTo 2 (pyMaxD dailyReturns)
    worst_day := roundTo 2 (pyMinD dailyReturns) }

/-- `QuantAnalyzer.calculate_performance`: `.ok none` models the absence
return (`None`), `.error` models an uncaught Python exception. -/
def calculate_performance (sq : ℚ → ℚ) (hd : List PricePoint) :
    Except String (Option PerformanceMetrics) :=
  if hd.length < 5 then .ok none
  else
    match strictCloses hd with
    | .error e => .error e
    | .ok vals =>
      match dailyReturnsFrom (vals.zip vals.tail) with
      | .error e => .error e
      | .ok dailyReturns =>
        if dailyReturns = [] then .ok none
        else
          match totalReturnE vals with
          | .error e => .error e
          | .ok totalReturn =>
            match toNums vals with
            | .error e => .error e
            | .ok nums =>
              .ok (some (perfRecord sq hd.length totalReturn nums dailyReturns))

/-! ## Backtest engine -/

/-- One entry of a backtest's signal log (the Python `dict`); fields that a
strategy does not set are `none`. -/
structure TradeSignal where
  date : String
  action : String
  price : ℚ
  rsiVal : Option ℚ := none
  profit : Option ℚ := none
  reason : String
deriving Repr, DecidableEq

/-- The `BacktestResult` dataclass. -/
structure BacktestResult where
  strategy_name : String
  total_return : ℚ
  annual_return : ℚ
  max_drawdown : ℚ
  sharpe_ratio : ℚ
  win_rate : ℚ
  profit_loss_ratio : ℚ
  trade_count : ℕ
  signals : List TradeSignal := []
deriving Repr, DecidableEq

/-- The mutable state of a backtest simulation loop. -/
structure SimState where
  position : ℕ := 0
  entry : ℚ := 0
  signals : List TradeSignal := []
  trades : List ℚ := []
deriving Repr, DecidableEq

/-- One iteration of the `backtest_ma_cross` loop at index `i`.  (Python
would raise `ZeroDivisionError` on a sell with entry price exactly `0`; `ℚ`
division is total there.) -/
def maStep (closes : List ℚ) (dates : List String) (fast slow : ℕ)
    (s : SimState) (i : ℕ) : SimState :=
  let fastMa := (pySlice closes (i - fast + 1) (i + 1)).sum / fast
  let slowMa := (pySlice closes (i - slow + 1) (i + 1)).sum / slow
  let prevFast := (pySlice closes (i - fast) i).sum / fast
  let prevSlow := (pySlice closes (i - slow) i).sum / slow
  let c := closes.getD i 0
  if prevFast ≤ prevSlow ∧ fastMa > slowMa ∧ s.position = 0 then
    { s with
      position := 1
      entry := c
      signals := s.signals ++
        [{ date := dates.getD i ""
           action := "买入"
           price := c
           reason := s!"MA{fast}上穿MA{slow}" }] }
  else if prevFast ≥ prevSlow ∧ fastMa < slowMa ∧ s.position = 1 then
    let profit := (c - s.entry) / s.entry * 100
    { s with
      position := 0
      trades := s.trades ++ [profit]
      signals := s.signals ++
        [{ date := dates.getD i ""
           action := "卖出"
           price := c
           profit := some (roundTo 2 profit)
           reason := s!"MA{fast}下穿MA{slow}" }] }
  else s

/-- The `backtest_ma_cross` simulation over indices `slow .. len-1`. -/
def maSimulate (closes : List ℚ) (dates : List String) (fast slow : ℕ) :
    SimState :=
  (List.range' slow (closes.length - slow)).foldl (maStep closes dates fast slow) {}

/-- One iteration of the `backtest_rsi` loop at index `i`. -/
def rsiStep (closes : List ℚ) (dates : List String) (period : ℕ) (os ob : ℚ)
    (s : SimState) (i : ℕ) : SimState :=
  match calculate_rsi (closes.take (i + 1)) period,
      calculate_rsi (closes.take i) period with
  | some r, some pr =>
    let c := closes.getD i 0
    if pr ≤ os ∧ r > os ∧ s.position = 0 then
      { s with
        position := 1
        entry := c
        signals := s.signals ++
          [{ date := dates.getD i ""
             action := "买入"
             price := c
             rsiVal := some (roundTo 2 r)
             reason := "RSI从超卖区反弹" }] }
    else if pr ≥ ob ∧ r < ob ∧ s.position = 1 then
      let profit := (c - s.entry) / s.entry * 100
      { s with
        position := 0
        trades := s.trades ++ [profit]
        signals := s.signals ++
          [{ date := dates.getD i ""
             action := "卖出"
             price := c
             rsiVal := some (roundTo 2 r)
             profit := some (roundTo 2 profit)
             reason := "RSI进入超买区" }] }
    else s
  | _, _ => s

/-- The `backtest_rsi` simulation over indices `period+1 .. len-1`. -/
def rsiSimulate (closes : List ℚ) (dates : List String) (period : ℕ)
    (os ob : ℚ) : SimState :=
  (List.range' (period + 1) (closes.length - (period + 1))).foldl
    (rsiStep closes dates period os ob) {}

/-- The statistics block shared by both backtests once `trades` is
non-empty. -/
def btAggregate (sq : ℚ → ℚ) (name : String) (days : ℕ) (st : SimState) :
    BacktestResult :=
  let trades := st.trades
  let totalReturn := trades.sum
  let wins := trades.filter fun t => 0 < t
  let losses := trades.filter fun t => t < 0
  let winRate := if trades ≠ [] then (wins.length : ℚ) / trades.length * 100 else 0
  let avgWin := if wins ≠ [] then wins.sum / wins.length else 0
  let avgLoss := if losses ≠ [] then |losses.sum / losses.length| else 1
  let plRatio := if 0 < avgLoss then avgWin / avgLoss else 0
  let annualReturn := if 0 < days then totalReturn * (252 / days) else 0
  let maxDd := if trades ≠ [] then |pyMinD trades| else 0
  let sharpe :=
    if trades ≠ [] ∧ 0 < stdQ sq trades then
      trades.sum / trades.length / stdQ sq trades * sq (trades.length)
    else 0
  { strategy_name := name
    total_return := roundTo 2 totalReturn
    annual_return := roundTo 2 annualReturn
    max_drawdown := roundTo 2 maxDd
    sharpe_ratio := roundTo 2 sharpe
    win_rate := roundTo 2 winRate
    profit_loss_ratio := roundTo 2 plRatio
    trade_count := trades.length
    signals := lastN st.signals 5 }

/-- `QuantAnalyzer.backtest_ma_cross`. -/
def backtest_ma_cross (sq : ℚ → ℚ) (hd : List PricePoint) (fast slow : ℕ) :
    Except String (Option BacktestResult) :=
  if hd.length < slow + 10 then .ok none
  else
    match strictCloses hd with
    | .error e => .error e
    | .ok vals =>
      match toNums vals with
      | .error e => .error e
      | .ok closes =>
        let dates := hd.map fun d => d.date
        let st := maSimulate closes dates fast slow
        if st.trades = [] then
          .ok (some
            { strategy_name := s!"MA{fast}/{slow}交叉"
              total_return := 0
              annual_return := 0
              max_drawdown := 0
              sharpe_ratio := 0
              win_rate := 0
              profit_loss_ratio := 0
              trade_count := 0
              signals := st.signals })
        else .ok (some (btAggregate sq (s!"MA{fast}/{slow}交叉") hd.length st))

/-- `QuantAnalyzer.backtest_rsi`. -/
def backtest_rsi (sq : ℚ → ℚ) (hd : List PricePoint) (period : ℕ)
    (os ob : ℚ) : Except String (Option BacktestResult) :=
  if hd.length < period + 10 then .ok none
  else
    match strictCloses hd with
    | .error e => .error e
    | .ok vals =>
      match toNums vals with
      | .error e => .error e
      | .ok closes =>
        let dates := hd.map fun d => d.date
        let st := rsiSimulate closes dates period os ob
        if st.trades = [] then
          .ok (some
            { strategy_name := s!"RSI({period})"
              total_return := 0
              annual_return := 0
              max_drawdown := 0
              sharpe_ratio := 0
              win_rate := 0
              profit_loss_ratio := 0
              trade_count := 0
              signals := st.signals })
        else .ok (some (btAggregate sq (s!"RSI({period})") hd.length st))

/-- Numeric close of a record whose close key holds a number (used to state
theorems about well-formed series). -/
def closeNum (d : PricePoint) : ℚ :=
  match d.close with
  | some (.num q) => q
  | _ => 0

/-- The numeric closes of a well-formed series. -/
def numsOf (hd : List PricePoint) : List ℚ :=
  hd.map closeNum

/-- A series is well formed when every record has a numeric `close` value, as
the data model requires (`close` is a required decimal price). -/
def allNum (hd : List PricePoint) : Prop :=
  ∀ d ∈ hd, ∃ q, d.close = some (.num q)

/-- Stand-in for `math.sqrt` used to close witness statements; every witness
input only ever evaluates the square root at `0`, where `math.sqrt` also
returns `0`. -/
def sqrtStub : ℚ → ℚ := fun _ => 0

/-- A record with close, high and low all equal to `100`. -/
def pt100 : PricePoint :=
  { date := "", close := some (.num 100), high := some (.num 100),
    low := some (.num 100) }

/-- The 30-point series of identical closes of value 100 from the spec's
worked example. -/
def hd30 : List PricePoint := List.replicate 30 pt100

/-! ## General helper lemmas -/

theorem foldl_preserve {σ α : Type _} (P : σ → Prop) (f : σ → α → σ)
    (hf : ∀ s a, P s → P (f s a)) :
    ∀ (l : List α) (s : σ), P s → P (l.foldl f s) := by
  intro l
  induction l with
  | nil => intro s hs; simpa using hs
  | cons a t ih => intro s hs; simpa using ih (f s a) (hf s a hs)

theorem lastN_subset {α : Type _} (l : List α) (n : ℕ) : lastN l n ⊆ l := by
  unfold lastN
  split
  · exact List.Subset.refl l
  · exact List.drop_subset _ l

theorem lastN_ne_nil {α : Type _} {l : List α} (h : l ≠ []) (n : ℕ) :
    lastN l n ≠ [] := by
  unfold lastN
  split
  · exact h
  · rw [ne_eq, List.drop_eq_nil_iff]
    have : 0 < l.length := List.length_pos.mpr h
    omega

theorem zipWith_replicate_same {α β γ : Type _} (f : α → β → γ) (a : α) (b : β) :
    ∀ n, List.zipWith f (List.replicate n a) (List.replicate n b) =
      List.replicate n (f a b) := by
  intro n
  induction n with
  | zero => rfl
  | succ k ih => simp [List.replicate_succ, ih]

theorem lastN_replicate {α : Type _} (c : α) {n p : ℕ} (hp : 1 ≤ p) (hpn : p ≤ n) :
    lastN (List.replicate n c) p = List.replicate p c := by
  unfold lastN
  rw [if_neg (by omega)]
  rw [List.length_replicate, List.drop_replicate]
  congr 1
  omega

theorem sum_replicate_q (n : ℕ) (c : ℚ) : (List.replicate n c).sum = n * c := by
  rw [List.sum_replicate, nsmul_eq_mul]

theorem getD_replicate (c d : ℚ) : ∀ n i, i < n → (List.replicate n c).getD i d = c := by
  intro n
  induction n with
  | zero => intro i h; omega
  | succ k ih =>
    intro i h
    rw [List.replicate_succ]
    match i with
    | 0 => rfl
    | j + 1 =>
      rw [List.getD_cons_succ]
      exact ih j (by omega)

theorem getLast?_replicate_succ (c : ℚ) : ∀ k, (List.replicate (k + 1) c).getLast? = some c := by
  intro k
  induction k with
  | zero => rfl
  | succ j ih =>
    rw [List.replicate_succ]
    rw [List.getLast?_cons]
    simp only [ih]
    simp [List.replicate_succ]

theorem getLastD_replicate (c d : ℚ) (k : ℕ) :
    (List.replicate (k + 1) c).getLastD d = c := by
  induction k with
  | zero => rfl
  | succ j ih =>
    rw [List.replicate_succ, List.getLastD_cons]
    exact ih

theorem foldl_max_const (c : ℚ) : ∀ k, (List.replicate k c).foldl max c = c := by
  intro k
  induction k with
  | zero => rfl
  | succ j ih => rw [List.replicate_succ, List.foldl_cons, max_self, ih]

theorem foldl_min_const (c : ℚ) : ∀ k, (List.replicate k c).foldl min c = c := by
  intro k
  induction k with
  | zero => rfl
  | succ j ih => rw [List.replicate_succ, List.foldl_cons, min_self, ih]

theorem pyMaxD_replicate (c : ℚ) (k : ℕ) : pyMaxD (List.replicate (k + 1) c) = c := by
  rw [List.replicate_succ]
  exact foldl_max_const c k

theorem pyMinD_replicate (c : ℚ) (k : ℕ) : pyMinD (List.replicate (k + 1) c) = c := by
  rw [List.replicate_succ]
  exact foldl_min_const c k

theorem filterMap_length_all_some {α β : Type _} (f : α → Option β) :
    ∀ l : List α, (∀ a ∈ l, (f a).isSome) → (l.filterMap f).length = l.length := by
  intro l
  induction l with
  | nil => intro; rfl
  | cons a t ih =>
    intro h
    obtain ⟨b, hb⟩ := Option.isSome_iff_exists.mp (h a (by simp))
    rw [List.filterMap_cons, hb]
    simp only [List.length_cons]
    rw [ih (fun x hx => h x (by simp [hx]))]

/-! ## Facts about the indicator primitives -/

theorem sma_isSome {l : List ℚ} {p : ℕ} (h : p ≤ l.length) :
    ∃ m, sma l p = some m := by
  unfold sma
  rw [if_neg (not_lt.mpr h)]
  exact ⟨_, rfl⟩

theorem ema_isSome {l : List ℚ} {p : ℕ} (h : p ≤ l.length) :
    ∃ e, ema l p = some e := by
  unfold ema
  rw [if_neg (not_lt.mpr h)]
  exact ⟨_, rfl⟩

theorem foldl_emaStep_pos {m : ℚ} (hm0 : 0 < m) (hm1 : m ≤ 1) :
    ∀ (l : List ℚ) (acc : ℚ), 0 < acc → (∀ x ∈ l, 0 < x) →
      0 < l.foldl (emaStep m) acc := by
  intro l
  induction l with
  | nil => intro acc hacc _; simpa using hacc
  | cons x t ih =>
    intro acc hacc hmem
    simp only [List.foldl_cons]
    apply ih
    · have hx : 0 < x := hmem x (by simp)
      have hrw : emaStep m acc x = m * x + (1 - m) * acc := by unfold emaStep; ring
      rw [hrw]
      have h1 : 0 < m * x := mul_pos hm0 hx
      have h2 : 0 ≤ (1 - m) * acc := mul_nonneg (by linarith) (le_of_lt hacc)
      linarith
    · intro y hy
      exact hmem y (by simp [hy])

theorem ema_pos {l : List ℚ} {p : ℕ} (hp : 1 ≤ p) (h : p ≤ l.length)
    (hpos : ∀ x ∈ l, 0 < x) {e : ℚ} (he : ema l p = some e) : 0 < e := by
  unfold ema at he
  rw [if_neg (not_lt.mpr h)] at he
  obtain rfl := (Option.some.injEq _ _).mp he
  have hm0 : 0 < 2 / ((p : ℚ) + 1) := by positivity
  have hm1 : 2 / ((p : ℚ) + 1) ≤ 1 := by
    rw [div_le_one (by positivity)]
    have : (1 : ℚ) ≤ (p : ℚ) := by exact_mod_cast hp
    linarith
  apply foldl_emaStep_pos hm0 hm1
  · apply div_pos
    · apply List.sum_pos
      · intro x hx
        exact hpos x (List.take_subset p l hx)
      · have hlen : (l.take p).length = p := by
          rw [List.length_take]
          omega
        intro hnil
        rw [hnil] at hlen
        simp at hlen
        omega
    · exact_mod_cast Nat.lt_of_lt_of_le Nat.zero_lt_one hp
  · intro x hx
    exact hpos x (List.drop_subset p l hx)

/-- RSI returns exactly 100 whenever the retained deltas are all
non-negative (zero average loss). -/
theorem rsi_nonneg_deltas (prices : List ℚ) (p : ℕ)
    (hlen : p + 1 ≤ prices.length)
    (hpos : ∀ c ∈ lastN (changesOf prices) p, 0 ≤ c) :
    calculate_rsi prices p = some 100 := by
  unfold calculate_rsi
  rw [if_neg (not_lt.mpr hlen)]
  dsimp only
  have hz : ((lastN (changesOf prices) p).map fun c => |min 0 c|).sum = 0 := by
    apply List.sum_eq_zero
    intro x hx
    obtain ⟨c, hc, rfl⟩ := List.mem_map.mp hx
    rw [min_eq_left (hpos c hc), abs_zero]
  rw [hz, zero_div, if_pos rfl]

theorem sma_replicate {n p : ℕ} (c : ℚ) (hp : 1 ≤ p) (hpn : p ≤ n) :
    sma (List.replicate n c) p = some c := by
  unfold sma
  rw [if_neg (by rw [List.length_replicate]; omega)]
  rw [lastN_replicate c hp hpn, sum_replicate_q]
  congr 1
  exact mul_div_cancel_left₀ c (by exact_mod_cast (show p ≠ 0 by omega))

theorem foldl_emaStep_const (m c : ℚ) :
    ∀ k, (List.replicate k c).foldl (emaStep m) c = c := by
  intro k
  induction k with
  | zero => rfl
  | succ j ih =>
    rw [List.replicate_succ, List.foldl_cons]
    have hfix : emaStep m c c = c := by unfold emaStep; ring
    rw [hfix, ih]

theorem ema_replicate {n p : ℕ} (c : ℚ) (hp : 1 ≤ p) (hpn : p ≤ n) :
    ema (List.replicate n c) p = some c := by
  unfold ema
  rw [if_neg (by rw [List.length_replicate]; omega)]
  rw [List.take_replicate, List.drop_replicate]
  have hmin : min p n = p := by omega
  rw [hmin, sum_replicate_q]
  have hseed : (p : ℚ) * c / p = c :=
    mul_div_cancel_left₀ c (by exact_mod_cast (show p ≠ 0 by omega))
  rw [hseed, foldl_emaStep_const]

theorem zipWith_sub_replicate_shift (c : ℚ) :
    ∀ k, List.zipWith (fun b a => b - a) (List.replicate k c)
      (c :: List.replicate k c) = List.replicate k 0 := by
  intro k
  induction k with
  | zero => rfl
  | succ j ih =>
    rw [List.replicate_succ c, List.zipWith_cons_cons, ih]
    rw [List.replicate_succ]
    congr 1
    ring

theorem changesOf_replicate (c : ℚ) :
    ∀ n, changesOf (List.replicate n c) = List.replicate (n - 1) 0 := by
  intro n
  match n with
  | 0 => rfl
  | k + 1 =>
    unfold changesOf
    rw [List.replicate_succ, List.tail_cons]
    rw [show List.zipWith (fun b a => b - a) (List.replicate k c)
        (c :: List.replicate k c) = List.replicate k 0 from
      zipWith_sub_replicate_shift c k]
    simp

theorem rsi_replicate {n p : ℕ} (c : ℚ) (hpn : p + 1 ≤ n) :
    calculate_rsi (List.replicate n c) p = some 100 := by
  apply rsi_nonneg_deltas _ _ (by rw [List.length_replicate]; omega)
  intro x hx
  rw [changesOf_replicate] at hx
  have hx0 := List.eq_of_mem_replicate (lastN_subset _ _ hx)
  rw [hx0]

theorem varQ_replicate (n : ℕ) (c : ℚ) : varQ (List.replicate n c) = 0 := by
  unfold varQ
  match n with
  | 0 => simp
  | k + 1 =>
    dsimp only
    rw [List.length_replicate, sum_replicate_q]
    have hmean : (((k : ℚ) + 1) * c) / ((k + 1 : ℕ) : ℚ) = c := by
      push_cast
      exact mul_div_cancel_left₀ c (by positivity)
    rw [show ((k + 1 : ℕ) : ℚ) * c = ((k : ℚ) + 1) * c by push_cast; ring] at *
    rw [hmean]
    rw [List.map_replicate]
    rw [show (c - c) ^ 2 = 0 by ring]
    rw [sum_replicate_q]
    simp

theorem stdQ_replicate (sq : ℚ → ℚ) (hsq : sq 0 = 0) (n : ℕ) (c : ℚ) :
    stdQ sq (List.replicate n c) = 0 := by
  unfold stdQ
  split
  · rfl
  · rw [varQ_replicate, hsq]

/-! ## Evaluation of each indicator on the constant 30-point series -/

theorem closesOf_hd30 : closesOf hd30 = List.replicate 30 (100 : ℚ) := by
  unfold closesOf hd30
  rw [List.map_replicate]
  rfl

theorem highsOf_hd30 : highsOf hd30 = List.replicate 30 (100 : ℚ) := by
  unfold highsOf
  rw [closesOf_hd30]
  unfold hd30
  rw [zipWith_replicate_same]
  rfl

theorem lowsOf_hd30 : lowsOf hd30 = List.replicate 30 (100 : ℚ) := by
  unfold lowsOf
  rw [closesOf_hd30]
  unfold hd30
  rw [zipWith_replicate_same]
  rfl

theorem boll_hd30 (sq : ℚ → ℚ) (hsq : sq 0 = 0) :
    calculate_bollinger sq (List.replicate 30 (100 : ℚ)) 20 2 =
      (some 100, some 100, some 100) := by
  unfold calculate_bollinger
  rw [if_neg (by simp)]
  rw [sma_replicate 100 (by norm_num) (by norm_num)]
  dsimp only
  rw [lastN_replicate 100 (by norm_num) (by norm_num), stdQ_replicate sq hsq]
  norm_num

theorem kdj_hd30 :
    calculate_kdj (List.replicate 30 (100 : ℚ)) (List.replicate 30 (100 : ℚ))
      (List.replicate 30 (100 : ℚ)) 9 = (some 50, some 50, some 50) := by
  unfold calculate_kdj
  rw [if_neg (by simp)]
  rw [lastN_replicate 100 (by norm_num) (by norm_num)]
  rw [show (9 : ℕ) = 8 + 1 from rfl, List.replicate_succ]
  rw [show (30 : ℕ) = 29 + 1 from rfl, getLast?_replicate_succ]
  dsimp only
  rw [foldl_max_const, foldl_min_const, if_pos rfl]
  norm_num

theorem atr_hd30 :
    calculate_atr (List.replicate 30 (100 : ℚ)) (List.replicate 30 (100 : ℚ))
      (List.replicate 30 (100 : ℚ)) 14 = some 0 := by
  unfold calculate_atr
  rw [if_neg (by simp)]
  dsimp only
  have hz : (lastN ((List.range' 1 ((List.replicate 30 (100 : ℚ)).length - 1)).map fun i =>
      max ((List.replicate 30 (100 : ℚ)).getD i 0 - (List.replicate 30 (100 : ℚ)).getD i 0)
        (max |(List.replicate 30 (100 : ℚ)).getD i 0 - (List.replicate 30 (100 : ℚ)).getD (i - 1) 0|
          |(List.replicate 30 (100 : ℚ)).getD i 0 - (List.replicate 30 (100 : ℚ)).getD (i - 1) 0|)) 14).sum = 0 := by
    apply List.sum_eq_zero
    intro x hx
    have hx2 := lastN_subset _ _ hx
    obtain ⟨i, hi, rfl⟩ := List.mem_map.mp hx2
    rw [List.length_replicate] at hi
    rw [List.mem_range'_1] at hi
    rw [getD_replicate _ _ _ _ (by omega), getD_replicate _ _ _ _ (by omega)]
    norm_num
  rw [hz]
  norm_num

theorem macd_hd30 : calculate_macd (List.replicate 30 (100 : ℚ)) 12 26 9 =
    (none, none, none) := by
  unfold calculate_macd
  rw [if_pos (by simp)]

theorem ma60_hd30 : sma (List.replicate 30 (100 : ℚ)) 60 = none := by
  unfold sma
  rw [if_pos (by simp)]

/-- The full indicator record of the constant 30-point series.  Note the
trend score: RSI(14) = 100 lands in the overbought branch and subtracts 25;
every other contribution is zero. -/
theorem hd30_indicators_eval (sq : ℚ → ℚ) (hsq : sq 0 = 0) :
    calculate_all_indicators sq hd30 =
      { ma5 := some 100, ma10 := some 100, ma20 := some 100, ma60 := none
        ema12 := some 100, ema26 := some 100
        macd := none, macd_signal := none, macd_hist := none
        rsi_6 := some 100, rsi_14 := some 100
        boll_upper := some 100, boll_middle := some 100, boll_lower := some 100
        boll_width := some 0
        kdj_k := some 50, kdj_d := some 50, kdj_j := some 50
        atr := some 0, obv_trend := none
        trend_score := -25, signal := "观望" } := by
  unfold calculate_all_indicators
  rw [if_neg (by simp [hd30])]
  dsimp only
  rw [closesOf_hd30, highsOf_hd30, lowsOf_hd30]
  rw [sma_replicate 100 (by norm_num) (by norm_num : (5 : ℕ) ≤ 30),
    sma_replicate 100 (by norm_num) (by norm_num : (10 : ℕ) ≤ 30),
    sma_replicate 100 (by norm_num) (by norm_num : (20 : ℕ) ≤ 30),
    ma60_hd30,
    ema_replicate 100 (by norm_num) (by norm_num : (12 : ℕ) ≤ 30),
    ema_replicate 100 (by norm_num) (by norm_num : (26 : ℕ) ≤ 30),
    macd_hd30, rsi_replicate 100 (by norm_num : 6 + 1 ≤ 30),
    rsi_replicate 100 (by norm_num : 14 + 1 ≤ 30),
    boll_hd30 sq hsq, kdj_hd30, atr_hd30]
  rw [show (30 : ℕ) = 29 + 1 from rfl, getLastD_replicate]
  norm_num [calcSignal, optTruthy]

/-! ## Drawdown loop invariants -/

theorem ddStep_maxDd_mono (s : DDState) (ip : ℕ × ℚ) :
    s.maxDd ≤ (ddStep s ip).maxDd := by
  unfold ddStep
  by_cases h1 : ip.2 > s.peak
  · rw [if_pos h1]
  · rw [if_neg h1]
    dsimp only
    by_cases h2 : (if s.peak > 0 then (s.peak - ip.2) / s.peak * 100 else 0) > s.maxDd
    · rw [if_pos h2]; exact le_of_lt h2
    · rw [if_neg h2]

theorem dd_fold_nonneg (l : List (ℕ × ℚ)) (s : DDState) (hs : 0 ≤ s.maxDd) :
    0 ≤ (l.foldl ddStep s).maxDd :=
  foldl_preserve (fun st => 0 ≤ st.maxDd) ddStep
    (fun st ip h => le_trans h (ddStep_maxDd_mono st ip)) l s hs

theorem dd_fold_chain (l : List (ℕ × ℚ)) (s : DDState) (hdd : s.maxDd = 0)
    (hchain : List.Chain (· ≤ ·) s.peak (l.map Prod.snd)) :
    (l.foldl ddStep s).maxDd = 0 := by
  induction l generalizing s with
  | nil => simpa using hdd
  | cons ip t ih =>
    simp only [List.map_cons, List.chain_cons] at hchain
    obtain ⟨hle, hch⟩ := hchain
    simp only [List.foldl_cons]
    by_cases hgt : ip.2 > s.peak
    · apply ih
      · unfold ddStep; rw [if_pos hgt]; exact hdd
      · unfold ddStep; rw [if_pos hgt]; exact hch
    · have heq : s.peak = ip.2 := le_antisymm hle (not_lt.mp hgt)
      have hdd0 : (if s.peak > 0 then (s.peak - ip.2) / s.peak * 100 else 0) = 0 := by
        split
        · rw [heq]; ring
        · rfl
      apply ih
      · unfold ddStep
        rw [if_neg hgt]
        dsimp only
        rw [hdd0, hdd]
        rw [if_neg (lt_irrefl 0)]
      · unfold ddStep
        rw [if_neg hgt]
        dsimp only
        rw [hdd0, hdd, if_neg (lt_irrefl 0)]
        dsimp only
        rw [heq]
        exact hch

/-! ## KDJ evaluation -/

theorem kdj_eval (highs lows closes : List ℚ) (hh : highs ≠ []) (hl : lows ≠ [])
    (hc : 9 ≤ closes.length)
    (hlow : pyMinD (lastN lows 9) ≤ closes.getLastD 0)
    (hhigh : closes.getLastD 0 ≤ pyMaxD (lastN highs 9)) :
    ∃ j, calculate_kdj highs lows closes 9 = (some j, some j, some j) ∧
      0 ≤ j ∧ j ≤ 100 := by
  obtain ⟨h1, ht, hhd⟩ := List.exists_cons_of_ne_nil (lastN_ne_nil hh 9)
  obtain ⟨l1, lt2, hld⟩ := List.exists_cons_of_ne_nil (lastN_ne_nil hl 9)
  have hcne : closes ≠ [] := by
    intro hcon
    rw [hcon] at hc
    simp at hc
  obtain ⟨c, hcl⟩ := Option.isSome_iff_exists.mp (List.getLast?_isSome.mpr hcne)
  have hcd : closes.getLastD 0 = c := by
    rw [List.getLastD_eq_getLast?, hcl]
    rfl
  have hmax : pyMaxD (lastN highs 9) = ht.foldl max h1 := by rw [hhd]; rfl
  have hmin : pyMinD (lastN lows 9) = lt2.foldl min l1 := by rw [hld]; rfl
  unfold calculate_kdj
  rw [if_neg (by omega), hhd, hld, hcl]
  dsimp only
  rw [hmax] at hhigh
  rw [hmin] at hlow
  rw [hcd] at hhigh hlow
  by_cases heq : ht.foldl max h1 = lt2.foldl min l1
  · refine ⟨50, ?_, by norm_num, by norm_num⟩
    rw [if_pos heq]
    norm_num
  · have hlt : lt2.foldl min l1 < ht.foldl max h1 :=
      lt_of_le_of_ne (le_trans hlow hhigh) (fun hcon => heq hcon.symm)
    refine ⟨(c - lt2.foldl min l1) / (ht.foldl max h1 - lt2.foldl min l1) * 100,
      ?_, ?_, ?_⟩
    · rw [if_neg heq]
      have h3 : 3 * ((c - lt2.foldl min l1) / (ht.foldl max h1 - lt2.foldl min l1) * 100) -
          2 * ((c - lt2.foldl min l1) / (ht.foldl max h1 - lt2.foldl min l1) * 100) =
          (c - lt2.foldl min l1) / (ht.foldl max h1 - lt2.foldl min l1) * 100 := by ring
      rw [h3]
    · apply mul_nonneg _ (by norm_num)
      apply div_nonneg (by linarith) (by linarith)
    · have h1le : (c - lt2.foldl min l1) / (ht.foldl max h1 - lt2.foldl min l1) ≤ 1 := by
        rw [div_le_one (by linarith)]
        linarith
      nlinarith [h1le]

/-! ## Claim theorems -/

/-- C1 (amended): with the default parameters (fast 12, slow 26, signal 9),
`calculate_macd` returns all three components absent whenever the series has
fewer than `slow + signal = 35` points; with at least 35 points the MACD line
is always present, and when every close is positive the signal line is
present as well, the histogram additionally requiring a nonzero signal
line. -/
theorem macd_thresholds (prices : List ℚ) :
    (prices.length < 35 → calculate_macd prices 12 26 9 = (none, none, none)) ∧
    (35 ≤ prices.length →
      (∃ m, (calculate_macd prices 12 26 9).1 = some m) ∧
      ((∀ x ∈ prices, 0 < x) →
        (∃ s, (calculate_macd prices 12 26 9).2.1 = some s) ∧
        ∀ s, (calculate_macd prices 12 26 9).2.1 = some s → s ≠ 0 →
          (calculate_macd prices 12 26 9).2.2 =
            some ((calculate_macd prices 12 26 9).1.getD 0 - s))) := by
  constructor
  · intro h
    unfold calculate_macd
    rw [if_pos (by omega : prices.length < 26 + 9)]
  · intro h
    obtain ⟨ef, hef⟩ := ema_isSome (show 12 ≤ prices.length by omega)
    obtain ⟨es, hes⟩ := ema_isSome (show 26 ≤ prices.length by omega)
    unfold calculate_macd
    rw [if_neg (by omega : ¬ prices.length < 26 + 9), hef, hes]
    dsimp only
    constructor
    · refine ⟨ef - es, ?_⟩
      split <;> rfl
    · intro hpos
      have hlen : (macdHistoryOf prices 12 26).length = prices.length + 1 - 26 := by
        unfold macdHistoryOf
        rw [filterMap_length_all_some]
        · rw [List.length_range']
        · intro i hi
          rw [List.mem_range'_1] at hi
          have hle : 26 ≤ i := hi.1
          have hlt : i ≤ prices.length := by omega
          have htake : (prices.take i).length = i := by
            rw [List.length_take]; omega
          obtain ⟨a, ha⟩ := ema_isSome (l := prices.take i) (p := 12) (by omega)
          obtain ⟨b, hb⟩ := ema_isSome (l := prices.take i) (p := 26) (by omega)
          have hpa : 0 < a := ema_pos (by norm_num) (by omega)
            (fun x hx => hpos x (List.take_subset i prices hx)) ha
          have hpb : 0 < b := ema_pos (by norm_num) (by omega)
            (fun x hx => hpos x (List.take_subset i prices hx)) hb
          rw [ha, hb]
          simp [ne_of_gt hpa, ne_of_gt hpb]
      rw [if_neg (by rw [hlen]; omega)]
      obtain ⟨sv, hsv⟩ := sma_isSome (l := macdHistoryOf prices 12 26) (p := 9)
        (by rw [hlen]; omega)
      rw [hsv]
      refine ⟨⟨sv, rfl⟩, ?_⟩
      intro s hs hs0
      dsimp only at hs
      obtain rfl := (Option.some.injEq _ _).mp hs
      simp [if_neg hs0]

/-- C1 counterexample: a series of 26 points — at least `slow` but fewer
than `slow + signal` — for which the claimed non-absent `macd_line` is in
fact absent (the guard returns all three components as `None`). -/
theorem macd_thresholds_counter :
    (calculate_macd (List.replicate 26 (100 : ℚ)) 12 26 9).1 = none := by
  unfold calculate_macd
  rw [if_pos (by simp)]

theorem macd_thresholds_w :
    calculate_macd (List.replicate 10 (100 : ℚ)) 12 26 9 = (none, none, none) ∧
    (∃ m, (calculate_macd (List.replicate 36 (1 : ℚ)) 12 26 9).1 = some m) ∧
    (∃ s, (calculate_macd (List.replicate 36 (1 : ℚ)) 12 26 9).2.1 = some s) := by
  refine ⟨(macd_thresholds _).1 (by simp), ?_, ?_⟩
  · exact ((macd_thresholds _).2 (by simp)).1
  · exact (((macd_thresholds _).2 (by simp)).2
      (by intro x hx; rw [List.eq_of_mem_replicate hx]; norm_num)).1

/-- C2 (amended): on the 30-point constant series of closes 100 the moving
averages are all 100, both RSIs resolve to 100, the Bollinger width is 0 and
the signal is hold (观望) — but the trend score is `-25`, not `0`: RSI(14)
= 100 falls in the overbought branch (`rsi_14 > 70`) and subtracts 25. -/
theorem indicators_const_series (sq : ℚ → ℚ) (hsq : sq 0 = 0) :
    calculate_all_indicators sq hd30 =
      { ma5 := some 100, ma10 := some 100, ma20 := some 100, ma60 := none
        ema12 := some 100, ema26 := some 100
        macd := none, macd_signal := none, macd_hist := none
        rsi_6 := some 100, rsi_14 := some 100
        boll_upper := some 100, boll_middle := some 100, boll_lower := some 100
        boll_width := some 0
        kdj_k := some 50, kdj_d := some 50, kdj_j := some 50
        atr := some 0, obv_trend := none
        trend_score := -25, signal := "观望" } :=
  hd30_indicators_eval sq hsq

/-- C2 counterexample: on the constant 30-point series the trend score is
not `0` as claimed (it is `-25`). -/
theorem indicators_const_series_counter :
    (calculate_all_indicators sqrtStub hd30).trend_score ≠ 0 := by
  rw [hd30_indicators_eval sqrtStub rfl]
  norm_num

theorem indicators_const_series_w :
    calculate_all_indicators sqrtStub hd30 =
      { ma5 := some 100, ma10 := some 100, ma20 := some 100, ma60 := none
        ema12 := some 100, ema26 := some 100
        macd := none, macd_signal := none, macd_hist := none
        rsi_6 := some 100, rsi_14 := some 100
        boll_upper := some 100, boll_middle := some 100, boll_lower := some 100
        boll_width := some 0
        kdj_k := some 50, kdj_d := some 50, kdj_j := some 50
        atr := some 0, obv_trend := none
        trend_score := -25, signal := "观望" } :=
  indicators_const_series sqrtStub rfl

/-- C5: for a positive period `p`, RSI is absent below `p + 1` points, every
returned value lies in `[0, 100]`, and the value is exactly 100 whenever all
of the last `p` deltas are non-negative. -/
theorem rsi_props (prices : List ℚ) (p : ℕ) (hp : 1 ≤ p) :
    (prices.length < p + 1 → calculate_rsi prices p = none) ∧
    (∀ r, calculate_rsi prices p = some r → 0 ≤ r ∧ r ≤ 100) ∧
    (p + 1 ≤ prices.length → (∀ c ∈ lastN (changesOf prices) p, 0 ≤ c) →
      calculate_rsi prices p = some 100) := by
  have hppos : 0 < (p : ℚ) := by exact_mod_cast Nat.lt_of_lt_of_le Nat.zero_lt_one hp
  refine ⟨fun h => ?_, fun r hr => ?_, fun hlen hpos => rsi_nonneg_deltas prices p hlen hpos⟩
  · unfold calculate_rsi
    rw [if_pos h]
  · unfold calculate_rsi at hr
    by_cases h : prices.length < p + 1
    · rw [if_pos h] at hr
      exact absurd hr (by simp)
    · rw [if_neg h] at hr
      dsimp only at hr
      have hG0 : 0 ≤ ((lastN (changesOf prices) p).map fun c => max 0 c).sum := by
        apply List.sum_nonneg
        intro x hx
        obtain ⟨c, _, rfl⟩ := List.mem_map.mp hx
        exact le_max_left 0 c
      have hL0 : 0 ≤ ((lastN (changesOf prices) p).map fun c => |min 0 c|).sum := by
        apply List.sum_nonneg
        intro x hx
        obtain ⟨c, _, rfl⟩ := List.mem_map.mp hx
        exact abs_nonneg _
      split at hr
      · obtain rfl := (Option.some.injEq _ _).mp hr
        norm_num
      · rename_i h0
        obtain rfl := (Option.some.injEq _ _).mp hr
        have hLpos : 0 < ((lastN (changesOf prices) p).map fun c => |min 0 c|).sum / (p : ℚ) :=
          lt_of_le_of_ne (div_nonneg hL0 (le_of_lt hppos)) (Ne.symm h0)
        have hrs : 0 ≤ ((lastN (changesOf prices) p).map fun c => max 0 c).sum / (p : ℚ) /
            (((lastN (changesOf prices) p).map fun c => |min 0 c|).sum / (p : ℚ)) :=
          div_nonneg (div_nonneg hG0 (le_of_lt hppos)) (le_of_lt hLpos)
        constructor
        · have hub : (100 : ℚ) / (1 + _) ≤ 100 := div_le_self (by norm_num) (by linarith)
          linarith [hub]
        · have hpostiv : (0 : ℚ) < 100 / (1 + ((lastN (changesOf prices) p).map fun c => max 0 c).sum / (p : ℚ) /
              (((lastN (changesOf prices) p).map fun c => |min 0 c|).sum / (p : ℚ))) :=
            div_pos (by norm_num) (by linarith)
          linarith

theorem rsi_props_w : calculate_rsi [(1 : ℚ), 3] 1 = some 100 :=
  (rsi_props [(1 : ℚ), 3] 1 le_rfl).2.2 (by simp)
    (by intro c hc; simp [changesOf, lastN] at hc; subst hc; norm_num)

/-- C6: the maximum drawdown is non-negative for every price series, and is
`0` on every (possibly empty) non-decreasing series. -/
theorem maxDrawdown_nonneg_and_zero_on_monotone (prices : List ℚ) :
    0 ≤ (maxDrawdown prices).1 ∧
      (List.Chain' (· ≤ ·) prices → (maxDrawdown prices).1 = 0) := by
  match prices with
  | [] => exact ⟨le_refl 0, fun _ => rfl⟩
  | p0 :: rest =>
    constructor
    · exact dd_fold_nonneg _ _ (le_refl 0)
    · intro hchain
      unfold maxDrawdown
      dsimp only
      apply dd_fold_chain
      · rfl
      · rw [List.enum_map_snd]
        exact List.chain_cons.mpr ⟨le_refl p0, hchain⟩

theorem maxDrawdown_nonneg_w :
    0 ≤ (maxDrawdown [1, 2]).1 ∧ (maxDrawdown [(1 : ℚ), 2]).1 = 0 := by
  obtain ⟨h1, h2⟩ := maxDrawdown_nonneg_and_zero_on_monotone [(1 : ℚ), 2]
  exact ⟨h1, h2 (by norm_num [List.chain'_cons])⟩

/-- C8: on a series shorter than 5 points the indicator engine returns the
all-absent record with trend score 0 and the hold signal. -/
theorem short_series_all_absent (sq : ℚ → ℚ) (hd : List PricePoint)
    (h : hd.length < 5) :
    calculate_all_indicators sq hd =
      { ma5 := none, ma10 := none, ma20 := none, ma60 := none
        ema12 := none, ema26 := none
        macd := none, macd_signal := none, macd_hist := none
        rsi_6 := none, rsi_14 := none
        boll_upper := none, boll_middle := none, boll_lower := none
        boll_width := none
        kdj_k := none, kdj_d := none, kdj_j := none
        atr := none, obv_trend := none
        trend_score := 0, signal := "观望" } := by
  unfold calculate_all_indicators
  rw [if_pos h]

theorem short_series_all_absent_w :
    calculate_all_indicators sqrtStub [] =
      { ma5 := none, ma10 := none, ma20 := none, ma60 := none
        ema12 := none, ema26 := none
        macd := none, macd_signal := none, macd_hist := none
        rsi_6 := none, rsi_14 := none
        boll_upper := none, boll_middle := none, boll_lower := none
        boll_width := none
        kdj_k := none, kdj_d := none, kdj_j := none
        atr := none, obv_trend := none
        trend_score := 0, signal := "观望" } :=
  short_series_all_absent sqrtStub [] (by simp)

/-- C10: whenever `calculate_kdj` returns values, K = D = J; and whenever
the last close lies between the lowest low and the highest high of the
9-point window, the common value produced through
`calculate_all_indicators` lies in `[0, 100]`, so the composite-score
branches for `kdj_j > 100` and `kdj_j < 0` can never fire. -/
theorem kdj_identical_and_bounded :
    (∀ (highs lows closes : List ℚ) (p : ℕ) (k d j : ℚ),
      calculate_kdj highs lows closes p = (some k, some d, some j) →
        k = d ∧ d = j) ∧
    (∀ (sq : ℚ → ℚ) (hd : List PricePoint),
      9 ≤ hd.length →
      pyMinD (lastN (lowsOf hd) 9) ≤ (closesOf hd).getLastD 0 →
      (closesOf hd).getLastD 0 ≤ pyMaxD (lastN (highsOf hd) 9) →
      ∃ j, (calculate_all_indicators sq hd).kdj_k = some j ∧
        (calculate_all_indicators sq hd).kdj_d = some j ∧
        (calculate_all_indicators sq hd).kdj_j = some j ∧
        0 ≤ j ∧ j ≤ 100 ∧ ¬(j > 100) ∧ ¬(j < 0)) := by
  constructor
  · intro highs lows closes p k d j h
    unfold calculate_kdj at h
    split at h
    · simp at h
    · split at h
      · rw [Prod.mk.injEq, Prod.mk.injEq] at h
        obtain ⟨h1, h2, h3⟩ := h
        obtain rfl := (Option.some.injEq _ _).mp h1
        obtain rfl := (Option.some.injEq _ _).mp h2
        obtain rfl := (Option.some.injEq _ _).mp h3
        exact ⟨rfl, by ring⟩
      · simp at h
  · intro sq hd h9 hlow hhigh
    have hclen : (closesOf hd).length = hd.length := by
      unfold closesOf; rw [List.length_map]
    have hhlen : (highsOf hd).length = hd.length := by
      unfold highsOf
      rw [List.length_zipWith, hclen]
      omega
    have hllen : (lowsOf hd).length = hd.length := by
      unfold lowsOf
      rw [List.length_zipWith, hclen]
      omega
    obtain ⟨j, hj, hj0, hj100⟩ := kdj_eval (highsOf hd) (lowsOf hd) (closesOf hd)
      (by rw [← List.length_pos, hhlen]; omega)
      (by rw [← List.length_pos, hllen]; omega)
      (by omega) hlow hhigh
    refine ⟨j, ?_, ?_, ?_, hj0, hj100, not_lt.mpr hj100, not_lt.mpr hj0⟩ <;>
    · unfold calculate_all_indicators
      rw [if_neg (by omega)]
      dsimp only
      rw [hj]

theorem kdj_identical_and_bounded_w :
    ∃ j, (calculate_all_indicators sqrtStub hd30).kdj_k = some j ∧
      (calculate_all_indicators sqrtStub hd30).kdj_d = some j ∧
      (calculate_all_indicators sqrtStub hd30).kdj_j = some j ∧
      0 ≤ j ∧ j ≤ 100 ∧ ¬(j > 100) ∧ ¬(j < 0) := by
  apply kdj_identical_and_bounded.2 sqrtStub hd30 (by simp [hd30])
  · rw [lowsOf_hd30, closesOf_hd30]
    rw [lastN_replicate 100 (by norm_num) (by norm_num)]
    rw [show (9 : ℕ) = 8 + 1 from rfl, pyMinD_replicate]
    rw [show (30 : ℕ) = 29 + 1 from rfl, getLastD_replicate]
  · rw [highsOf_hd30, closesOf_hd30]
    rw [lastN_replicate 100 (by norm_num) (by norm_num)]
    rw [show (9 : ℕ) = 8 + 1 from rfl, pyMaxD_replicate]
    rw [show (30 : ℕ) = 29 + 1 from rfl, getLastD_replicate]

/-! ## Performance-engine reductions -/


theorem strictCloses_allNum : ∀ (hd : List PricePoint), allNum hd →
    strictCloses hd = .ok (hd.map fun d => PyVal.num (closeNum d)) := by
  intro hd
  induction hd with
  | nil => intro; rfl
  | cons d t ih =>
    intro h
    obtain ⟨q, hq⟩ := h d (by simp)
    have hcn : closeNum d = q := by unfold closeNum; rw [hq]
    unfold strictCloses
    rw [hq]
    rw [ih (fun x hx => h x (by simp [hx]))]
    rw [List.map_cons, hcn]

theorem toNums_map_num : ∀ (l : List ℚ), toNums (l.map PyVal.num) = .ok l := by
  intro l
  induction l with
  | nil => rfl
  | cons q t ih =>
    rw [List.map_cons]
    unfold toNums
    rw [ih]

theorem dailyReturnsFrom_num (pairs : List (ℚ × ℚ)) :
    dailyReturnsFrom (pairs.map (Prod.map PyVal.num PyVal.num)) =
      .ok (dailyReturnsQ pairs) := by
  induction pairs with
  | nil => rfl
  | cons pc rest ih =>
    obtain ⟨p, c⟩ := pc
    rw [List.map_cons]
    show dailyReturnsFrom ((PyVal.num p, PyVal.num c) :: _) = _
    unfold dailyReturnsFrom dailyReturnsQ
    by_cases hp : p = 0
    · simp [pyNe0, hp, ih]
    · simp [pyNe0, hp, ih]

theorem dailyReturnsQ_eq_nil_iff (pairs : List (ℚ × ℚ)) :
    dailyReturnsQ pairs = [] ↔ ∀ pc ∈ pairs, pc.1 = 0 := by
  induction pairs with
  | nil => simp [dailyReturnsQ]
  | cons pc rest ih =>
    obtain ⟨p, c⟩ := pc
    unfold dailyReturnsQ
    by_cases hp : p = 0
    · simp [hp, ih]
    · simp [hp]

theorem map_num_tail (nums : List ℚ) :
    (List.map PyVal.num nums).tail = List.map PyVal.num nums.tail := by
  cases nums <;> rfl

theorem totalReturnE_num (nums : List ℚ) (hne : nums ≠ []) :
    ∃ t, totalReturnE (nums.map PyVal.num) = .ok t := by
  obtain ⟨n0, rest, rfl⟩ := List.exists_cons_of_ne_nil hne
  unfold totalReturnE
  rw [List.map_cons]
  by_cases h0 : n0 = 0
  · rw [List.headD_cons]
    simp [pyTruthyV, h0]
  · rw [List.headD_cons]
    have htr : pyTruthyV (PyVal.num n0) = true := by simp [pyTruthyV, h0]
    rw [htr]
    simp only [if_true]
    have hlast : (PyVal.num n0 :: rest.map PyVal.num).getLastD PyVal.pynone =
        PyVal.num ((n0 :: rest).getLastD 0) := by
      rw [show PyVal.num n0 :: rest.map PyVal.num = (n0 :: rest).map PyVal.num from rfl]
      rw [List.getLastD_eq_getLast?, List.getLastD_eq_getLast?, List.getLast?_map]
      cases hc : (n0 :: rest).getLast?
      · simp at hc
      · rfl
    rw [hlast]
    exact ⟨_, rfl⟩

theorem numsOf_length (hd : List PricePoint) : (numsOf hd).length = hd.length := by
  unfold numsOf
  rw [List.length_map]

theorem strictCloses_num_form (hd : List PricePoint) (h : allNum hd) :
    strictCloses hd = .ok ((numsOf hd).map PyVal.num) := by
  rw [strictCloses_allNum hd h]
  unfold numsOf
  rw [List.map_map]
  rfl

/-- C4: on a well-formed series (every close a number, as the data model
requires), `calculate_performance` returns absence exactly when the series
has fewer than 5 points or every consecutive close pair has a zero prior
close (empty daily-return list); in every other case it returns a fully
populated record. -/
theorem performance_absence (sq : ℚ → ℚ) (hd : List PricePoint) (h : allNum hd) :
    (calculate_performance sq hd = .ok none ↔
      (hd.length < 5 ∨ ∀ pc ∈ (numsOf hd).zip (numsOf hd).tail, pc.1 = 0)) ∧
    (5 ≤ hd.length → (¬ ∀ pc ∈ (numsOf hd).zip (numsOf hd).tail, pc.1 = 0) →
      ∃ m, calculate_performance sq hd = .ok (some m)) := by
  by_cases h5 : hd.length < 5
  · constructor
    · constructor
      · intro; exact Or.inl h5
      · intro
        unfold calculate_performance
        rw [if_pos h5]
    · intro hcon; omega
  · unfold calculate_performance
    rw [if_neg h5, strictCloses_num_form hd h]
    dsimp only
    rw [map_num_tail, List.zip_map, dailyReturnsFrom_num]
    dsimp only
    by_cases hempty : dailyReturnsQ ((numsOf hd).zip (numsOf hd).tail) = []
    · rw [if_pos hempty]
      constructor
      · exact ⟨fun _ => Or.inr ((dailyReturnsQ_eq_nil_iff _).mp hempty), fun _ => rfl⟩
      · intro _ hcon
        exact absurd ((dailyReturnsQ_eq_nil_iff _).mp hempty) hcon
    · rw [if_neg hempty]
      obtain ⟨t, ht⟩ := totalReturnE_num (numsOf hd) (by
        have hl := numsOf_length hd
        intro hcon
        rw [hcon] at hl
        simp at hl
        omega)
      rw [ht]
      dsimp only
      rw [toNums_map_num]
      dsimp only
      constructor
      · constructor
        · intro hcon; simp at hcon
        · intro hcon
          cases hcon with
          | inl h1 => omega
          | inr h2 => exact absurd ((dailyReturnsQ_eq_nil_iff _).mpr h2) hempty
      · intro _ _
        exact ⟨_, rfl⟩

theorem performance_absence_w :
    ∃ m, calculate_performance sqrtStub
      [{ date := "", close := some (.num 1) }, { date := "", close := some (.num 2) },
       { date := "", close := some (.num 3) }, { date := "", close := some (.num 4) },
       { date := "", close := some (.num 5) }] = .ok (some m) := by
  apply (performance_absence sqrtStub _ ?_).2 (by simp) ?_
  · intro d hdm
    simp at hdm
    rcases hdm with rfl | rfl | rfl | rfl | rfl <;> exact ⟨_, rfl⟩
  · intro hcon
    have := hcon (1, 2) (by simp [numsOf, closeNum])
    norm_num at this

/-- C3 (failing input): five records without a `close` key.  The claim says
all three public operations coerce malformed values and never raise, but
`calculate_performance` and both backtests extract `d["close"]` directly and
raise `KeyError` (modelled as `.error`); only `calculate_all_indicators`
coerces — the last conjunct shows it treats the malformed series exactly
like the all-zero series. -/
theorem close_extraction_failure :
    calculate_performance sqrtStub (List.replicate 5 ({} : PricePoint)) =
      .error "KeyError" ∧
    backtest_ma_cross sqrtStub (List.replicate 30 ({} : PricePoint)) 5 20 =
      .error "KeyError" ∧
    backtest_rsi sqrtStub (List.replicate 30 ({} : PricePoint)) 14 30 70 =
      .error "KeyError" ∧
    calculate_all_indicators sqrtStub (List.replicate 5 ({} : PricePoint)) =
      calculate_all_indicators sqrtStub (List.replicate 5
        ({ date := "", close := some (.num 0), high := some (.num 0),
           low := some (.num 0) } : PricePoint)) := by
  refine ⟨rfl, rfl, rfl, ?_⟩
  have h1 : closesOf (List.replicate 5 ({} : PricePoint)) = List.replicate 5 (0 : ℚ) := by
    unfold closesOf
    rw [List.map_replicate]
    rfl
  have h2 : closesOf (List.replicate 5
      ({ date := "", close := some (.num 0), high := some (.num 0),
         low := some (.num 0) } : PricePoint)) = List.replicate 5 (0 : ℚ) := by
    unfold closesOf
    rw [List.map_replicate]
    rfl
  have h3 : highsOf (List.replicate 5 ({} : PricePoint)) = List.replicate 5 (0 : ℚ) := by
    unfold highsOf
    rw [h1]
    rw [zipWith_replicate_same]
  have h4 : highsOf (List.replicate 5
      ({ date := "", close := some (.num 0), high := some (.num 0),
         low := some (.num 0) } : PricePoint)) = List.replicate 5 (0 : ℚ) := by
    unfold highsOf
    rw [h2]
    rw [zipWith_replicate_same]
    rfl
  have h5 : lowsOf (List.replicate 5 ({} : PricePoint)) = List.replicate 5 (0 : ℚ) := by
    unfold lowsOf
    rw [h1]
    rw [zipWith_replicate_same]
  have h6 : lowsOf (List.replicate 5
      ({ date := "", close := some (.num 0), high := some (.num 0),
         low := some (.num 0) } : PricePoint)) = List.replicate 5 (0 : ℚ) := by
    unfold lowsOf
    rw [h2]
    rw [zipWith_replicate_same]
    rfl
  unfold calculate_all_indicators
  rw [if_neg (by simp), if_neg (by simp)]
  dsimp only
  rw [h1, h2, h3, h4, h5, h6]

/-! ## Backtest reductions -/


theorem foldl_fixed {σ α : Type _} {f : σ → α → σ} {s : σ} :
    ∀ l : List α, (∀ a ∈ l, f s a = s) → l.foldl f s = s := by
  intro l
  induction l with
  | nil => intro; rfl
  | cons a t ih =>
    intro h
    rw [List.foldl_cons, h a (by simp)]
    exact ih fun x hx => h x (by simp [hx])

theorem extraction_eq_numsOf :
    ∀ (hd : List PricePoint) (vals : List PyVal) (closes : List ℚ),
      strictCloses hd = .ok vals → toNums vals = .ok closes →
      closes = numsOf hd := by
  intro hd
  induction hd with
  | nil =>
    intro vals closes h1 h2
    obtain rfl : vals = ([] : List PyVal) := by
      unfold strictCloses at h1
      exact ((Except.ok.injEq _ _).mp h1).symm
    obtain rfl : closes = ([] : List ℚ) := by
      unfold toNums at h2
      exact ((Except.ok.injEq _ _).mp h2).symm
    rfl
  | cons d t ih =>
    intro vals closes h1 h2
    unfold strictCloses at h1
    cases hc : d.close with
    | none => rw [hc] at h1; simp at h1
    | some v =>
      rw [hc] at h1
      cases hst : strictCloses t with
      | error e => rw [hst] at h1; simp at h1
      | ok vs =>
        rw [hst] at h1
        obtain rfl : v :: vs = vals := (Except.ok.injEq _ _).mp h1
        unfold toNums at h2
        cases v with
        | num q =>
          cases htn : toNums vs with
          | error e => rw [htn] at h2; simp at h2
          | ok qs =>
            rw [htn] at h2
            obtain rfl : q :: qs = closes := (Except.ok.injEq _ _).mp h2
            have hq : closeNum d = q := by unfold closeNum; rw [hc]
            have hqs := ih vs qs hst htn
            unfold numsOf at hqs ⊢
            rw [List.map_cons, hq, hqs]
        | pynone => simp at h2
        | other => simp at h2

/-- The signal/trade/position bookkeeping invariant of both simulations. -/
def simInv (s : SimState) : Prop :=
  s.signals.length = 2 * s.trades.length + s.position ∧ s.position ≤ 1

theorem maStep_inv (closes : List ℚ) (dates : List String) (fast slow : ℕ)
    (s : SimState) (i : ℕ) (h : simInv s) :
    simInv (maStep closes dates fast slow s i) := by
  obtain ⟨h1, h2⟩ := h
  unfold maStep
  by_cases hb : (pySlice closes (i - fast) i).sum / (fast : ℚ) ≤
        (pySlice closes (i - slow) i).sum / (slow : ℚ) ∧
      (pySlice closes (i - fast + 1) (i + 1)).sum / (fast : ℚ) >
        (pySlice closes (i - slow + 1) (i + 1)).sum / (slow : ℚ) ∧
      s.position = 0
  · rw [if_pos hb]
    unfold simInv
    dsimp only
    rw [List.length_append, h1, hb.2.2]
    constructor
    · simp
    · omega
  · rw [if_neg hb]
    by_cases hs : (pySlice closes (i - fast) i).sum / (fast : ℚ) ≥
          (pySlice closes (i - slow) i).sum / (slow : ℚ) ∧
        (pySlice closes (i - fast + 1) (i + 1)).sum / (fast : ℚ) <
          (pySlice closes (i - slow + 1) (i + 1)).sum / (slow : ℚ) ∧
        s.position = 1
    · rw [if_pos hs]
      unfold simInv
      dsimp only
      rw [List.length_append, List.length_append, h1, hs.2.2]
      constructor
      · simp
        omega
      · omega
    · rw [if_neg hs]
      exact ⟨h1, h2⟩

theorem maSimulate_inv (closes : List ℚ) (dates : List String) (fast slow : ℕ) :
    simInv (maSimulate closes dates fast slow) := by
  unfold maSimulate
  apply foldl_preserve simInv _ (fun s i h => maStep_inv closes dates fast slow s i h)
  exact ⟨rfl, by norm_num⟩

theorem rsiStep_inv (closes : List ℚ) (dates : List String) (p : ℕ) (os ob : ℚ)
    (s : SimState) (i : ℕ) (h : simInv s) :
    simInv (rsiStep closes dates p os ob s i) := by
  obtain ⟨h1, h2⟩ := h
  unfold rsiStep
  cases calculate_rsi (closes.take (i + 1)) p with
  | none => exact ⟨h1, h2⟩
  | some r =>
    cases calculate_rsi (closes.take i) p with
    | none => exact ⟨h1, h2⟩
    | some pr =>
      dsimp only
      by_cases hb : pr ≤ os ∧ r > os ∧ s.position = 0
      · rw [if_pos hb]
        unfold simInv
        dsimp only
        rw [List.length_append, h1, hb.2.2]
        constructor
        · simp
        · omega
      · rw [if_neg hb]
        by_cases hs : pr ≥ ob ∧ r < ob ∧ s.position = 1
        · rw [if_pos hs]
          unfold simInv
          dsimp only
          rw [List.length_append, List.length_append, h1, hs.2.2]
          constructor
          · simp
            omega
          · omega
        · rw [if_neg hs]
          exact ⟨h1, h2⟩

theorem rsiSimulate_inv (closes : List ℚ) (dates : List String) (p : ℕ)
    (os ob : ℚ) : simInv (rsiSimulate closes dates p os ob) := by
  unfold rsiSimulate
  apply foldl_preserve simInv _ (fun s i h => rsiStep_inv closes dates p os ob s i h)
  exact ⟨rfl, by norm_num⟩

theorem lastN_of_length_le {α : Type _} {l : List α} (h : l.length ≤ 5) :
    lastN l 5 = l := by
  unfold lastN
  rw [if_neg (by norm_num)]
  rw [show l.length - 5 = 0 by omega]
  exact List.drop_zero l

theorem lastN_length_le {α : Type _} (l : List α) : (lastN l 5).length ≤ 5 := by
  unfold lastN
  rw [if_neg (by norm_num)]
  rw [List.length_drop]
  omega

/-- The zero-trade branch of `backtest_ma_cross`. -/
theorem ma_zero_branch (sq : ℚ → ℚ) (hd : List PricePoint) (fast slow : ℕ)
    (h10 : slow + 10 ≤ hd.length) (hnum : allNum hd)
    (htr : (maSimulate (numsOf hd) (hd.map fun d => d.date) fast slow).trades = []) :
    backtest_ma_cross sq hd fast slow = .ok (some
      { strategy_name := s!"MA{fast}/{slow}交叉"
        total_return := 0, annual_return := 0, max_drawdown := 0
        sharpe_ratio := 0, win_rate := 0, profit_loss_ratio := 0
        trade_count := 0
        signals := (maSimulate (numsOf hd) (hd.map fun d => d.date) fast slow).signals }) := by
  unfold backtest_ma_cross
  rw [if_neg (by omega), strictCloses_num_form hd hnum]
  dsimp only
  rw [toNums_map_num]
  dsimp only
  rw [if_pos htr]

/-- The zero-trade branch of `backtest_rsi`. -/
theorem rsi_zero_branch (sq : ℚ → ℚ) (hd : List PricePoint) (p : ℕ) (os ob : ℚ)
    (h10 : p + 10 ≤ hd.length) (hnum : allNum hd)
    (htr : (rsiSimulate (numsOf hd) (hd.map fun d => d.date) p os ob).trades = []) :
    backtest_rsi sq hd p os ob = .ok (some
      { strategy_name := s!"RSI({p})"
        total_return := 0, annual_return := 0, max_drawdown := 0
        sharpe_ratio := 0, win_rate := 0, profit_loss_ratio := 0
        trade_count := 0
        signals := (rsiSimulate (numsOf hd) (hd.map fun d => d.date) p os ob).signals }) := by
  unfold backtest_rsi
  rw [if_neg (by omega), strictCloses_num_form hd hnum]
  dsimp only
  rw [toNums_map_num]
  dsimp only
  rw [if_pos htr]

/-- C7: below the length precondition (`slow + 10` for MA-cross, `period +
10` for RSI) each backtest returns no result; at or above it, on a
well-formed series whose simulation completes zero trades, each backtest
returns a `BacktestResult` with total return, annual return, max drawdown,
Sharpe ratio, win rate, profit/loss ratio and trade count all zero.  The
period hypotheses delimit the domain on which the rational model is faithful
(Python would raise `ZeroDivisionError` on a zero period, and negative
slices behave differently when `fast > slow`). -/
theorem backtest_zero_trades (sq : ℚ → ℚ) (hd : List PricePoint)
    (fast slow p : ℕ) (os ob : ℚ)
    (hf : 1 ≤ fast) (hfs : fast ≤ slow) (hp : 1 ≤ p) :
    (hd.length < slow + 10 → backtest_ma_cross sq hd fast slow = .ok none) ∧
    (hd.length < p + 10 → backtest_rsi sq hd p os ob = .ok none) ∧
    (slow + 10 ≤ hd.length → allNum hd →
      (maSimulate (numsOf hd) (hd.map fun d => d.date) fast slow).trades = [] →
      backtest_ma_cross sq hd fast slow = .ok (some
        { strategy_name := s!"MA{fast}/{slow}交叉"
          total_return := 0, annual_return := 0, max_drawdown := 0
          sharpe_ratio := 0, win_rate := 0, profit_loss_ratio := 0
          trade_count := 0
          signals := (maSimulate (numsOf hd) (hd.map fun d => d.date) fast slow).signals })) ∧
    (p + 10 ≤ hd.length → allNum hd →
      (rsiSimulate (numsOf hd) (hd.map fun d => d.date) p os ob).trades = [] →
      backtest_rsi sq hd p os ob = .ok (some
        { strategy_name := s!"RSI({p})"
          total_return := 0, annual_return := 0, max_drawdown := 0
          sharpe_ratio := 0, win_rate := 0, profit_loss_ratio := 0
          trade_count := 0
          signals := (rsiSimulate (numsOf hd) (hd.map fun d => d.date) p os ob).signals })) := by
  refine ⟨fun h => ?_, fun h => ?_,
    fun h10 hnum htr => ma_zero_branch sq hd fast slow h10 hnum htr,
    fun h10 hnum htr => rsi_zero_branch sq hd p os ob h10 hnum htr⟩
  · unfold backtest_ma_cross
    rw [if_pos h]
  · unfold backtest_rsi
    rw [if_pos h]

theorem pySlice_replicate (c : ℚ) {n a b : ℕ} (hb : b ≤ n) :
    pySlice (List.replicate n c) a b = List.replicate (b - a) c := by
  unfold pySlice
  rw [List.drop_replicate, List.take_replicate]
  congr 1
  omega

theorem numsOf_hd30 : numsOf hd30 = List.replicate 30 (100 : ℚ) := by
  unfold numsOf hd30
  rw [List.map_replicate]
  rfl

theorem maStep_const {n fast slow i : ℕ} (c : ℚ) (dates : List String)
    (s : SimState) (hf : 1 ≤ fast) (hfs : fast ≤ slow) (hsl : slow ≤ i)
    (hi : i < n) :
    maStep (List.replicate n c) dates fast slow s i = s := by
  unfold maStep
  rw [pySlice_replicate c (show i + 1 ≤ n by omega),
    pySlice_replicate c (show i + 1 ≤ n by omega),
    pySlice_replicate c (show i ≤ n by omega),
    pySlice_replicate c (show i ≤ n by omega)]
  rw [show i + 1 - (i - fast + 1) = fast by omega,
    show i + 1 - (i - slow + 1) = slow by omega,
    show i - (i - fast) = fast by omega,
    show i - (i - slow) = slow by omega]
  rw [sum_replicate_q, sum_replicate_q]
  have hcf : (fast : ℚ) * c / fast = c :=
    mul_div_cancel_left₀ c (by exact_mod_cast (show fast ≠ 0 by omega))
  have hcs : (slow : ℚ) * c / slow = c :=
    mul_div_cancel_left₀ c (by exact_mod_cast (show slow ≠ 0 by omega))
  rw [hcf, hcs]
  rw [if_neg (by intro hcon; exact absurd hcon.2.1 (lt_irrefl c))]
  rw [if_neg (by intro hcon; exact absurd hcon.2.1 (lt_irrefl c))]

theorem maSimulate_const {n fast slow : ℕ} (c : ℚ) (dates : List String)
    (hf : 1 ≤ fast) (hfs : fast ≤ slow) :
    maSimulate (List.replicate n c) dates fast slow = {} := by
  unfold maSimulate
  apply foldl_fixed
  intro i hi
  rw [List.length_replicate] at hi
  rw [List.mem_range'_1] at hi
  exact maStep_const c dates {} hf hfs hi.1 (by omega)

theorem rsiStep_const_30_70 {n p i : ℕ} (c : ℚ) (dates : List String)
    (hp : 1 ≤ p) (hpi : p + 1 ≤ i) (hi : i < n) :
    rsiStep (List.replicate n c) dates p 30 70 ({} : SimState) i = {} := by
  unfold rsiStep
  rw [List.take_replicate, List.take_replicate]
  rw [show min (i + 1) n = i + 1 by omega, show min i n = i by omega]
  rw [rsi_replicate c (show p + 1 ≤ i + 1 by omega),
    rsi_replicate c (show p + 1 ≤ i by omega)]
  dsimp only
  rw [if_neg (by intro hcon; norm_num at hcon)]
  rw [if_neg (by intro hcon; norm_num at hcon)]

theorem rsiSimulate_const_30_70 {n p : ℕ} (c : ℚ) (dates : List String)
    (hp : 1 ≤ p) :
    rsiSimulate (List.replicate n c) dates p 30 70 = {} := by
  unfold rsiSimulate
  apply foldl_fixed
  intro i hi
  rw [List.length_replicate] at hi
  rw [List.mem_range'_1] at hi
  exact rsiStep_const_30_70 c dates hp hi.1 (by omega)

theorem allNum_hd30 : allNum hd30 := by
  intro d hdm
  unfold hd30 at hdm
  rw [List.eq_of_mem_replicate hdm]
  exact ⟨100, rfl⟩

theorem backtest_zero_trades_w :
    backtest_ma_cross sqrtStub hd30 5 20 = .ok (some
      { strategy_name := "MA5/20交叉"
        total_return := 0, annual_return := 0, max_drawdown := 0
        sharpe_ratio := 0, win_rate := 0, profit_loss_ratio := 0
        trade_count := 0, signals := [] }) ∧
    backtest_rsi sqrtStub hd30 14 30 70 = .ok (some
      { strategy_name := "RSI(14)"
        total_return := 0, annual_return := 0, max_drawdown := 0
        sharpe_ratio := 0, win_rate := 0, profit_loss_ratio := 0
        trade_count := 0, signals := [] }) ∧
    backtest_ma_cross sqrtStub [] 5 20 = .ok none ∧
    backtest_rsi sqrtStub [] 14 30 70 = .ok none := by
  have hma := (backtest_zero_trades sqrtStub hd30 5 20 14 30 70 (by norm_num)
    (by norm_num) (by norm_num)).2.2.1 (by simp [hd30]) allNum_hd30
    (by rw [numsOf_hd30, maSimulate_const 100 _ (by norm_num) (by norm_num)])
  rw [numsOf_hd30, maSimulate_const 100 _ (by norm_num) (by norm_num)] at hma
  have hrsi := (backtest_zero_trades sqrtStub hd30 5 20 14 30 70 (by norm_num)
    (by norm_num) (by norm_num)).2.2.2 (by simp [hd30]) allNum_hd30
    (by rw [numsOf_hd30, rsiSimulate_const_30_70 100 _ (by norm_num)])
  rw [numsOf_hd30, rsiSimulate_const_30_70 100 _ (by norm_num)] at hrsi
  refine ⟨hma, hrsi, ?_, ?_⟩
  · exact (backtest_zero_trades sqrtStub [] 5 20 14 30 70 (by norm_num)
      (by norm_num) (by norm_num)).1 (by simp)
  · exact (backtest_zero_trades sqrtStub [] 5 20 14 30 70 (by norm_num)
      (by norm_num) (by norm_num)).2.1 (by simp)

/-- C9: every `BacktestResult` returned by either backtest carries at most
five signals, and the retained list is exactly the most recent five (or
fewer) signals of the simulation, in chronological order.  In the zero-trade
branch the signal log is not truncated by the code, but it can hold at most
one entry (a single un-matched buy), so the bound still holds. -/
theorem backtest_signals_truncated (sq : ℚ → ℚ) (hd : List PricePoint)
    (fast slow p : ℕ) (os ob : ℚ) :
    (∀ r, backtest_ma_cross sq hd fast slow = .ok (some r) →
      r.signals.length ≤ 5 ∧
      r.signals =
        lastN (maSimulate (numsOf hd) (hd.map fun d => d.date) fast slow).signals 5) ∧
    (∀ r, backtest_rsi sq hd p os ob = .ok (some r) →
      r.signals.length ≤ 5 ∧
      r.signals =
        lastN (rsiSimulate (numsOf hd) (hd.map fun d => d.date) p os ob).signals 5) := by
  constructor
  · intro r hr
    unfold backtest_ma_cross at hr
    split at hr
    · simp at hr
    · cases hsc : strictCloses hd with
      | error e => rw [hsc] at hr; simp at hr
      | ok vals =>
        rw [hsc] at hr
        dsimp only at hr
        cases htn : toNums vals with
        | error e => rw [htn] at hr; simp at hr
        | ok closes =>
          rw [htn] at hr
          dsimp only at hr
          obtain rfl := extraction_eq_numsOf hd vals closes hsc htn
          split at hr
          · rename_i htr
            obtain rfl : _ = r := (Option.some.injEq _ _).mp ((Except.ok.injEq _ _).mp hr)
            obtain ⟨hlen, hpos⟩ := maSimulate_inv (numsOf hd) (hd.map fun d => d.date) fast slow
            rw [htr] at hlen
            simp only [List.length_nil] at hlen
            have hle : (maSimulate (numsOf hd) (hd.map fun d => d.date) fast slow).signals.length ≤ 5 := by
              omega
            exact ⟨hle, (lastN_of_length_le hle).symm⟩
          · obtain rfl : _ = r := (Option.some.injEq _ _).mp ((Except.ok.injEq _ _).mp hr)
            unfold btAggregate
            exact ⟨lastN_length_le _, rfl⟩
  · intro r hr
    unfold backtest_rsi at hr
    split at hr
    · simp at hr
    · cases hsc : strictCloses hd with
      | error e => rw [hsc] at hr; simp at hr
      | ok vals =>
        rw [hsc] at hr
        dsimp only at hr
        cases htn : toNums vals with
        | error e => rw [htn] at hr; simp at hr
        | ok closes =>
          rw [htn] at hr
          dsimp only at hr
          obtain rfl := extraction_eq_numsOf hd vals closes hsc htn
          split at hr
          · rename_i htr
            obtain rfl : _ = r := (Option.some.injEq _ _).mp ((Except.ok.injEq _ _).mp hr)
            obtain ⟨hlen, hpos⟩ := rsiSimulate_inv (numsOf hd) (hd.map fun d => d.date) p os ob
            rw [htr] at hlen
            simp only [List.length_nil] at hlen
            have hle : (rsiSimulate (numsOf hd) (hd.map fun d => d.date) p os ob).signals.length ≤ 5 := by
              omega
            exact ⟨hle, (lastN_of_length_le hle).symm⟩
          · obtain rfl : _ = r := (Option.some.injEq _ _).mp ((Except.ok.injEq _ _).mp hr)
            unfold btAggregate
            exact ⟨lastN_length_le _, rfl⟩

/-- The constant-series MA backtest returns the zero-trade record; proved
directly from the zero branch (used to instantiate the truncation claim). -/
theorem const_ma_bt :
    backtest_ma_cross sqrtStub hd30 5 20 = .ok (some
      { strategy_name := "MA5/20交叉"
        total_return := 0, annual_return := 0, max_drawdown := 0
        sharpe_ratio := 0, win_rate := 0, profit_loss_ratio := 0
        trade_count := 0, signals := [] }) := by
  have hma := ma_zero_branch sqrtStub hd30 5 20 (by simp [hd30]) allNum_hd30
    (by rw [numsOf_hd30, maSimulate_const 100 _ (by norm_num) (by norm_num)])
  rw [numsOf_hd30, maSimulate_const 100 _ (by norm_num) (by norm_num)] at hma
  exact hma

theorem backtest_signals_truncated_w :
    (({ strategy_name := "MA5/20交叉"
        total_return := 0, annual_return := 0, max_drawdown := 0
        sharpe_ratio := 0, win_rate := 0, profit_loss_ratio := 0
        trade_count := 0, signals := [] } : BacktestResult)).signals.length ≤ 5 ∧
    (({ strategy_name := "MA5/20交叉"
        total_return := 0, annual_return := 0, max_drawdown := 0
        sharpe_ratio := 0, win_rate := 0, profit_loss_ratio := 0
        trade_count := 0, signals := [] } : BacktestResult)).signals =
      lastN (maSimulate (numsOf hd30) (hd30.map fun d => d.date) 5 20).signals 5 :=
  (backtest_signals_truncated sqrtStub hd30 5 20 14 30 70).1 _ const_ma_bt
